import Mathlib

/-!
Shallow embedding of the stamp compositing engine of `src/index.py`
(auto-stamp).  Python floats are modelled by rationals, Python ints by
integers; external capabilities (glyph metrics, image decoding) are
parameters.  Each definition mirrors the corresponding place in the
source; the theorems at the end of the file settle the frozen claims.
-/

namespace AutoStamp

/-- Python `int(x)` on a float: truncation toward zero. -/
def pyInt (q : ℚ) : ℤ := if 0 ≤ q then ⌊q⌋ else ⌈q⌉

/-- Python `round(x)` on a float: round half to even (banker's rounding). -/
def pyRound (q : ℚ) : ℤ :=
  if q - ⌊q⌋ < 1/2 then ⌊q⌋
  else if 1/2 < q - ⌊q⌋ then ⌊q⌋ + 1
  else if Even ⌊q⌋ then ⌊q⌋ else ⌊q⌋ + 1

/-- Python `a // b`: floor division. -/
def pyFloorDiv (a b : ℤ) : ℤ := Int.fdiv a b

/-- `PT_PER_MM = mm` from reportlab: 72 points per inch, 25.4 mm per inch,
so `72 / 25.4 = 360/127` points per millimetre (src line 77). -/
def ptPerMM : ℚ := 360 / 127

/-- `mm_to_pt` (src line 82). -/
def mmToPt (v : ℚ) : ℚ := v * ptPerMM

/-- `pick_font_name` (src lines 85-89). -/
def pickFontName (bold italic : Bool) : String :=
  if bold && italic then ("Helvetica-BoldOblique")
  else if bold then ("Helvetica-Bold")
  else if italic then ("Helvetica-Oblique")
  else ("Helvetica")

/-- The `Stamp` dataclass (src lines 123-147). Image bytes are an optional
byte list; Python truthiness of `image_bytes` is `imgTruthy` below. -/
structure Stamp where
  stamp_type : String
  x_mm : ℚ := 50
  y_mm : ℚ := 50
  w_mm : ℚ := 50
  h_mm : ℚ := 30
  rotation_deg : ℚ := 0
  page_from : ℤ := 1
  page_to : ℤ := 1
  image_bytes : Option (List ℕ) := none
  text : String := ("")
  font_size_pt : ℚ := 28
  bold : Bool := true
  italic : Bool := false
  rect_fill_hex : String := ("#FFFFFF")
  rect_border_hex : String := ("#000000")
  text_color_hex : String := ("#000000")
  rect_opacity : ℚ := 0
  border_width_pt : ℚ := 1
  padding_mm : ℚ := 3
  tiled : Bool := false
  tile_dx_mm : ℚ := 60
  tile_dy_mm : ℚ := 60
  tile_angle_deg : ℚ := 45
  deriving DecidableEq

/-- Python truthiness of the `image_bytes` field: `None` and `b""` are
falsy, any nonempty byte string is truthy. -/
def imgTruthy : Option (List ℕ) → Bool
  | none => false
  | some bs => !bs.isEmpty

/-- Splits a character list at every occurrence of `c`, keeping empty
segments (the behaviour of Python `str.split(c)` with an explicit
separator). -/
def splitCharsAux (c : Char) : List Char → List Char → List (List Char)
  | [], acc => [acc.reverse]
  | x :: xs, acc =>
    if x = c then acc.reverse :: splitCharsAux c xs []
    else splitCharsAux c xs (x :: acc)

/-- Python `s.split(sep)` for a one-character separator, keeping empties. -/
def splitOnChar (c : Char) (s : String) : List String :=
  (splitCharsAux c s.toList []).map String.mk

/-- The hard-line decomposition of a text: split on newline characters. -/
def splitOnNL (s : String) : List String := splitOnChar '\n' s

/-- Python `s.split()` on spaces: empty fragments are dropped. -/
def pyWords (s : String) : List String :=
  (splitOnChar ' ' s).filter (fun w => !(w = ("")))

/-- One step of the greedy word-wrap: accumulate words onto the current
line while the measured width of the joined candidate stays within
`maxW`; otherwise emit the current line and start a new one. -/
def greedyWrapGo (sw : String → ℚ) (maxW : ℚ) : String → List String → List String
  | cur, [] => [cur]
  | cur, w :: ws =>
    if sw (cur ++ (" ") ++ w) ≤ maxW then greedyWrapGo sw maxW (cur ++ (" ") ++ w) ws
    else cur :: greedyWrapGo sw maxW w ws

/-- Greedy word-wrap of one hard line: the first word always starts the
line (even if it alone overflows `maxW`). An empty word list produces no
lines. -/
def greedyWrap (sw : String → ℚ) (maxW : ℚ) : List String → List String
  | [] => []
  | w :: ws => greedyWrapGo sw maxW w ws

/-- Model of reportlab's `simpleSplit(text, font, size, maxWidth)` used at
src line 591: split `text` on explicit line breaks (hard boundaries),
then greedy word-wrap each hard line into `maxW` measured by the glyph
metrics capability `sw` (a width function for the active font and size). -/
def simpleSplit (sw : String → ℚ) (text : String) (maxW : ℚ) : List String :=
  (splitOnNL text).flatMap (fun l => greedyWrap sw maxW (pyWords l))

/-- Python `range(a, b, s)` for integer arguments: the arithmetic
progression `a, a+s, ...` strictly below `b` (empty when `s ≤ 0`, which
never occurs in the source since both loops floor the step at 6). -/
def pyRangeLen (a b s : ℤ) : ℕ :=
  if b ≤ a ∨ s ≤ 0 then 0 else ((b - a - 1).toNat / s.toNat) + 1

/-- The list produced by Python `range(a, b, s)` (for `s > 0`). -/
def pythonRange (a b s : ℤ) : List ℤ :=
  (List.range (pyRangeLen a b s)).map (fun (k : ℕ) => a + s * (k : ℤ))

/-! ## Raster compositor (`draw_preview_overlay_for_page`, src 395-519) -/

/-- Page context of the raster path: bitmap pixel size (`page.width`,
`page.height`) and the page's point-space size. -/
structure RasterCtx where
  W : ℕ
  H : ℕ
  pageWpt : ℚ
  pageHpt : ℚ
  deriving DecidableEq

/-- `px_per_pt_x = page.width / page_w_pt` (src line 407). -/
def ppx (c : RasterCtx) : ℚ := (c.W : ℚ) / c.pageWpt

/-- `px_per_pt_y = page.height / page_h_pt` (src line 408). -/
def ppy (c : RasterCtx) : ℚ := (c.H : ℚ) / c.pageHpt

/-- Result of `rect_pixels` (src lines 410-418): pixel bounds in the
bitmap's top-left coordinate system. -/
structure RectPx where
  left : ℤ
  top : ℤ
  right : ℤ
  bottom : ℤ
  deriving DecidableEq

/-- `rect_pixels(x_pt, y_pt, w_pt, h_pt)` (src lines 410-418): scale to
pixels with `round`, then flip the Y axis with the bitmap height. -/
def rectPixels (c : RasterCtx) (x y w h : ℚ) : RectPx :=
  { left := pyRound (x * ppx c)
    top := (c.H : ℤ) - pyRound ((y + h) * ppy c)
    right := pyRound ((x + w) * ppx c)
    bottom := (c.H : ℤ) - pyRound (y * ppy c) }

/-- The pixel rectangle `l, t, r, b` computed for a stamp (src line 426). -/
def boxRect (c : RasterCtx) (sp : Stamp) : RectPx :=
  rectPixels c (mmToPt sp.x_mm) (mmToPt sp.y_mm) (mmToPt sp.w_mm) (mmToPt sp.h_mm)

/-- Raster tiled grid pitch in pixels, X axis:
`dx_px = max(6, int(dx_pt * px_per_pt_x))` (src line 458). -/
def rasterTileDxPx (c : RasterCtx) (sp : Stamp) : ℤ :=
  max 6 (pyInt (mmToPt sp.tile_dx_mm * ppx c))

/-- Raster tiled grid pitch in pixels, Y axis (src line 459). -/
def rasterTileDyPx (c : RasterCtx) (sp : Stamp) : ℤ :=
  max 6 (pyInt (mmToPt sp.tile_dy_mm * ppy c))

/-- Raster tiled phase offset, X axis:
`off_x_px = int(mm_to_pt(sp.x_mm) * px_per_pt_x)` (src line 477). -/
def rasterTileOffX (c : RasterCtx) (sp : Stamp) : ℤ :=
  pyInt (mmToPt sp.x_mm * ppx c)

/-- Raster tiled phase offset, Y axis:
`off_y_px = int(mm_to_pt(sp.y_mm) * px_per_pt_y)` (src line 478); note the
source composites at `y + off_y_px` directly in top-left pixel space. -/
def rasterTileOffY (c : RasterCtx) (sp : Stamp) : ℤ :=
  pyInt (mmToPt sp.y_mm * ppy c)

/-- Grid rows of the raster tiled loop:
`range(-page.height, page.height*2, dy_px)` (src line 480). -/
def rasterTileYs (c : RasterCtx) (sp : Stamp) : List ℤ :=
  pythonRange (-(c.H : ℤ)) (2 * (c.H : ℤ)) (rasterTileDyPx c sp)

/-- Grid columns of the raster tiled loop:
`range(-page.width, page.width*2, dx_px)` (src line 481). -/
def rasterTileXs (c : RasterCtx) (sp : Stamp) : List ℤ :=
  pythonRange (-(c.W : ℤ)) (2 * (c.W : ℤ)) (rasterTileDxPx c sp)

/-- All sprite placements of the raster tiled path (src lines 480-484):
each grid point shifted by the phase offset. -/
def rasterTilePositions (c : RasterCtx) (sp : Stamp) : List (ℤ × ℤ) :=
  (rasterTileYs c sp).flatMap (fun y =>
    (rasterTileXs c sp).map (fun x =>
      (x + rasterTileOffX c sp, y + rasterTileOffY c sp)))

/-- One drawing operation of the raster path.  `rotArg` fields record the
angle handed to the PIL `Image.rotate` primitive. -/
inductive RasterOp
  | imageComposite (resizeW resizeH : ℤ) (rotArg : ℚ) (cx cy : ℤ)
  | rectFill (l t r b : ℤ) (alpha : ℤ)
  | rectBorder (l t r b : ℤ) (widthPx : ℤ) (alpha : ℤ)
  | textBlock (tx ty : ℤ) (s : String) (rotArg : ℚ)
  | tiledText (rotArg : ℚ) (spriteW spriteH : ℤ) (positions : List (ℤ × ℤ)) (s : String)
  deriving DecidableEq

/-- Discriminator for the raster operations. -/
inductive RKind
  | image
  | rectFill
  | rectBorder
  | textBlock
  | tiledText
  deriving DecidableEq

/-- Kind of a raster operation. -/
def RasterOp.kind : RasterOp → RKind
  | .imageComposite _ _ _ _ _ => .image
  | .rectFill _ _ _ _ _ => .rectFill
  | .rectBorder _ _ _ _ _ _ => .rectBorder
  | .textBlock _ _ _ _ => .textBlock
  | .tiledText _ _ _ _ _ => .tiledText

/-- The operations `draw_preview_overlay_for_page` performs for a single
stamp that passed the page-range guard (src lines 424-517).  `tb` is the
glyph-metrics capability `ImageDraw.textbbox` (text pixel width/height
for the active font); image decoding is assumed to succeed (a decode
failure only skips the stamp, src line 439). -/
def rasterStampOps (tb : String → ℤ × ℤ) (c : RasterCtx) (sp : Stamp) : List RasterOp :=
  let rp := boxRect c sp
  if sp.stamp_type = ("image") && imgTruthy sp.image_bytes then
    -- src lines 428-438: resize to the box, rotate by the NEGATED angle,
    -- composite centred in the box.
    [.imageComposite (max 1 (rp.right - rp.left)) (max 1 (rp.bottom - rp.top))
      (-sp.rotation_deg)
      (pyFloorDiv (rp.left + rp.right) 2) (pyFloorDiv (rp.top + rp.bottom) 2)]
  else if sp.tiled then
    -- src lines 453-486: tiled text; one sprite rotated by the negated
    -- tile angle, composited at every grid placement.
    let tw := (tb sp.text).1
    let th := (tb sp.text).2
    [.tiledText (-sp.tile_angle_deg) (tw + 4) (th + 4) (rasterTilePositions c sp) sp.text]
  else
    -- src lines 488-517: box mode; fill rectangle and border unrotated,
    -- text drawn on its own layer then rotated by the negated angle.
    let alpha := pyRound (255 * (1 - sp.rect_opacity))
    let borderPx := max 1 (pyRound (sp.border_width_pt * ppx c))
    let tw := (tb sp.text).1
    let th := (tb sp.text).2
    let cx := pyFloorDiv (rp.left + rp.right) 2
    let cy := pyFloorDiv (rp.top + rp.bottom) 2
    [.rectFill rp.left rp.top rp.right rp.bottom alpha,
     .rectBorder rp.left rp.top rp.right rp.bottom borderPx alpha,
     .textBlock (cx - pyFloorDiv tw 2) (cy - pyFloorDiv th 2) sp.text (-sp.rotation_deg)]

/-- The page-range guard of the raster loop (src line 421):
`sp.page_from - 1 <= page_idx0 <= sp.page_to - 1`. -/
def rasterApplies (sp : Stamp) (i : ℕ) : Bool :=
  decide (sp.page_from - 1 ≤ (i : ℤ) ∧ (i : ℤ) ≤ sp.page_to - 1)

/-- All raster operations for one page (src lines 420-517): stamps whose
guard fails are skipped with `continue`. -/
def rasterPageOps (tb : String → ℤ × ℤ) (c : RasterCtx) (i : ℕ)
    (stamps : List Stamp) : List RasterOp :=
  stamps.flatMap (fun sp =>
    if rasterApplies sp i then rasterStampOps tb c sp else [])

/-- The line sequence the raster box mode hands to PIL in a single
`ImageDraw.text` call (src line 515): PIL renders the raw string,
breaking only at explicit newline characters — no word-wrap, no padding
inset. -/
def rasterLineSeq (sp : Stamp) : List String := splitOnNL sp.text

/-! ## Vector compositor (`build_overlay_pdf_for_page`, src 521-606) -/

/-- One drawing operation of the vector path (reportlab canvas calls). -/
inductive VectorOp
  | translate (x y : ℚ)
  | rotate (a : ℚ)
  | setFillColorHex (c : String)
  | setStrokeColorHex (c : String)
  | setFont (n : String) (size : ℚ)
  | setLineWidth (w : ℚ)
  | setAlpha (fill stroke : ℚ)
  | rect (x y w h : ℚ)
  | drawString (x y : ℚ) (s : String)
  | drawImage (w h : ℚ)
  deriving DecidableEq

/-- The page-range filter of the overlay builder (src line 523). -/
def vectorApplies (sp : Stamp) (i : ℕ) : Bool :=
  decide (sp.page_from - 1 ≤ (i : ℤ) ∧ (i : ℤ) ≤ sp.page_to - 1)

/-- Vector tiled grid step, X axis: `int(max(6, dx_pt))` (src line 562). -/
def vectorTileStepX (sp : Stamp) : ℤ := pyInt (max 6 (mmToPt sp.tile_dx_mm))

/-- Vector tiled grid step, Y axis: `int(max(6, dy_pt))` (src line 561). -/
def vectorTileStepY (sp : Stamp) : ℤ := pyInt (max 6 (mmToPt sp.tile_dy_mm))

/-- Vector tiled rows: `range(-int(page_h_pt), int(page_h_pt*2), step)`
(src line 561). -/
def vectorTileYs (pageHpt : ℚ) (sp : Stamp) : List ℤ :=
  pythonRange (-(pyInt pageHpt)) (pyInt (pageHpt * 2)) (vectorTileStepY sp)

/-- Vector tiled columns: `range(-int(page_w_pt), int(page_w_pt*2), step)`
(src line 562). -/
def vectorTileXs (pageWpt : ℚ) (sp : Stamp) : List ℤ :=
  pythonRange (-(pyInt pageWpt)) (pyInt (pageWpt * 2)) (vectorTileStepX sp)

/-- The wrapped line sequence of the vector box mode (src lines 589-591):
`simpleSplit(sp.text, font, size, box_w)` with
`box_w = max(0, w_pt - 2*pad)`. -/
def vectorBoxLines (sw : String → ℚ) (sp : Stamp) : List String :=
  simpleSplit sw sp.text (max 0 (mmToPt sp.w_mm - 2 * mmToPt sp.padding_mm))

/-- The drawing loop over wrapped lines (src lines 595-600): positions are
computed from the centred block start, and the loop breaks as soon as a
line's baseline `ty` falls below the padding. -/
def drawLinesGo (sw : String → ℚ) (w pad startY leading : ℚ) (n : ℕ) :
    ℕ → List String → List (ℚ × ℚ × String)
  | _, [] => []
  | i, l :: rest =>
    if startY + leading * (((n : ℤ) - 1 - (i : ℤ) : ℤ) : ℚ) < pad then []
    else (max ((w - sw l) / 2) pad,
          startY + leading * (((n : ℤ) - 1 - (i : ℤ) : ℤ) : ℚ), l)
         :: drawLinesGo sw w pad startY leading n (i + 1) rest

/-- The `(tx, ty, line)` triples actually drawn by the vector box mode
(src lines 587-600): `leading = font_size * 1.2`,
`start_y = max((h_pt - leading*len(lines))/2, pad)`. -/
def vectorBoxDrawnStrings (sw : String → ℚ) (sp : Stamp) : List (ℚ × ℚ × String) :=
  drawLinesGo sw (mmToPt sp.w_mm) (mmToPt sp.padding_mm)
    (max ((mmToPt sp.h_mm - sp.font_size_pt * (6/5) * (vectorBoxLines sw sp).length) / 2)
      (mmToPt sp.padding_mm))
    (sp.font_size_pt * (6/5)) (vectorBoxLines sw sp).length 0 (vectorBoxLines sw sp)

/-- The operations `build_overlay_pdf_for_page` emits for one relevant
stamp (src lines 530-602).  `saveState`/`restoreState` bracketing is not
recorded; `sw` is the glyph-metrics capability `stringWidth`. -/
def vectorStampOps (sw : String → ℚ) (pageWpt pageHpt : ℚ) (sp : Stamp) : List VectorOp :=
  if sp.stamp_type = ("image") && imgTruthy sp.image_bytes then
    -- src lines 536-543: rotate about the box centre, then draw the image.
    [.translate (mmToPt sp.x_mm + mmToPt sp.w_mm / 2) (mmToPt sp.y_mm + mmToPt sp.h_mm / 2),
     .rotate sp.rotation_deg,
     .translate (-(mmToPt sp.w_mm / 2)) (-(mmToPt sp.h_mm / 2)),
     .drawImage (mmToPt sp.w_mm) (mmToPt sp.h_mm)]
  else if sp.stamp_type = ("text") then
    if sp.tiled then
      -- src lines 545-568: set text colour and font, then full-page repeat
      -- at the tile angle with the grid phase offset from (x_mm, y_mm).
      [.setFillColorHex sp.text_color_hex,
       .setFont (pickFontName sp.bold sp.italic) sp.font_size_pt] ++
      (vectorTileYs pageHpt sp).flatMap (fun y =>
        (vectorTileXs pageWpt sp).flatMap (fun x =>
          [.translate ((x : ℚ) + mmToPt sp.x_mm) ((y : ℚ) + mmToPt sp.y_mm),
           .rotate sp.tile_angle_deg,
           .setAlpha (max 0 (min 1 (1 - sp.rect_opacity))) (max 0 (min 1 (1 - sp.rect_opacity))),
           .drawString 0 0 sp.text]))
    else
      -- src lines 545-549 and 570-600: box mode, rectangle and text under
      -- one rotation about the box centre.
      [.setFillColorHex sp.text_color_hex,
       .setFont (pickFontName sp.bold sp.italic) sp.font_size_pt] ++
      [.translate (mmToPt sp.x_mm + mmToPt sp.w_mm / 2) (mmToPt sp.y_mm + mmToPt sp.h_mm / 2),
       .rotate sp.rotation_deg,
       .translate (-(mmToPt sp.w_mm / 2)) (-(mmToPt sp.h_mm / 2)),
       .setLineWidth sp.border_width_pt,
       .setStrokeColorHex sp.rect_border_hex,
       .setFillColorHex sp.rect_fill_hex,
       .setAlpha (max 0 (min 1 (1 - sp.rect_opacity))) (max 0 (min 1 (1 - sp.rect_opacity))),
       .rect 0 0 (mmToPt sp.w_mm) (mmToPt sp.h_mm),
       .setFillColorHex sp.text_color_hex] ++
      (vectorBoxDrawnStrings sw sp).map (fun t => .drawString t.1 t.2.1 t.2.2)
  else []

/-- `build_overlay_pdf_for_page` (src lines 521-606): `none` when no stamp
applies to the page, otherwise the concatenated operations of the
relevant stamps in z-order. -/
def buildOverlayOption (sw : String → ℚ) (stamps : List Stamp) (i : ℕ)
    (pageWpt pageHpt : ℚ) : Option (List VectorOp) :=
  let relevant := stamps.filter (fun sp => vectorApplies sp i)
  if relevant.isEmpty then none
  else some (relevant.flatMap (vectorStampOps sw pageWpt pageHpt))

/-! ## Merge pipeline and security (`apply_now` block, src 896-963) -/

/-- The security settings read from the UI state (src lines 802-833). -/
structure Security where
  enabled : Bool
  userPw : String
  ownerPw : String
  disablePrint : Bool
  disableModify : Bool
  disableCopy : Bool
  disableAnnotate : Bool
  disableFormfill : Bool
  disableAccessibility : Bool
  deriving DecidableEq

/-- The all-permissions-granted baseline `0xFFFFFFFC` (src line 926). -/
def permBaseline : ℕ := 0xFFFFFFFC

/-- The permission mask computation (src lines 926-940): start from the
baseline and clear one bit per enabled restriction (`p &= ~mask`). -/
def permissionsMask (sec : Security) : ℕ :=
  let p0 := permBaseline
  let p1 := if sec.disablePrint then Nat.ldiff p0 0b100 else p0
  let p2 := if sec.disableModify then Nat.ldiff p1 0b10000 else p1
  let p3 := if sec.disableCopy then Nat.ldiff p2 0b100000 else p2
  let p4 := if sec.disableAnnotate then Nat.ldiff p3 0b1000000 else p3
  let p5 := if sec.disableFormfill then Nat.ldiff p4 0b1000000000 else p4
  if sec.disableAccessibility then Nat.ldiff p5 0b10000000000 else p5

/-- The signed-32-bit wrap of the mask (src lines 943-944). -/
def permissionsFlag (sec : Security) : ℤ :=
  let p := permissionsMask sec
  if p > 0x7FFFFFFF then (p : ℤ) - 0x100000000 else (p : ℤ)

/-- One page of the produced document: its 0-based source index and the
number of `merge_page` calls it received. -/
structure OutputPage where
  srcIdx : ℕ
  mergeCount : ℕ
  deriving DecidableEq

/-- The apply pipeline (src lines 896-951): input checks, then security
validation (which `st.stop()`s before any page work), then per-page
overlay merge, then the optional encryption parameters.  The result is
`Except.error` exactly when the run aborts with no output document. -/
def applyNow (sw : String → ℚ) (hasPdf : Bool) (stamps : List Stamp)
    (sec : Security) (n : ℕ) (pageWpt pageHpt : ℚ) :
    Except String (List OutputPage × Option (String × String × ℤ)) :=
  if !hasPdf then .error ("Please upload a PDF.")
  else if stamps.isEmpty then .error ("Please add at least one stamp.")
  else if sec.enabled && (sec.userPw = ("") || sec.ownerPw = ("")) then
    .error ("Password protection is enabled. Please enter both User and Owner passwords.")
  else if sec.enabled && sec.userPw = sec.ownerPw then
    .error ("User and Owner passwords must be different.")
  else
    let pages := (List.range n).map (fun i =>
      { srcIdx := i
        mergeCount :=
          if (buildOverlayOption sw stamps i pageWpt pageHpt).isSome then 1 else 0
        : OutputPage })
    let enc := if sec.enabled then some (sec.userPw, sec.ownerPw, permissionsFlag sec) else none
    .ok (pages, enc)

/-! ## Derived observation functions and sample inputs -/

/-- Angles handed to the PIL `Image.rotate` primitive by the raster ops
(src lines 432, 474, 516). -/
def rasterRotArgs (ops : List RasterOp) : List ℚ :=
  ops.flatMap (fun op =>
    match op with
    | .imageComposite _ _ r _ _ => [r]
    | .textBlock _ _ _ r => [r]
    | .tiledText r _ _ _ _ => [r]
    | _ => [])

/-- Angles handed to `canvas.rotate` by the vector ops
(src lines 541, 565, 575). -/
def vectorRotArgs (ops : List VectorOp) : List ℚ :=
  ops.flatMap (fun op =>
    match op with
    | .rotate a => [a]
    | _ => [])

/-- The angle a stamp is rendered with: the tile angle on the tiled text
path (reached by any stamp that is not an image with bytes), otherwise
the stamp's own rotation. -/
def effectiveAngle (sp : Stamp) : ℚ :=
  if sp.tiled && !(sp.stamp_type = ("image") && imgTruthy sp.image_bytes) then
    sp.tile_angle_deg
  else sp.rotation_deg

/-- Modelled from the spec: claim C2 asserts that the raster tiled phase
offset is "flipped in the same way as the box-mode rectangle bounds
are", i.e. equals `bitmap_height - round(y_pt * px_per_pt_y)`.  This is
that asserted value, to be compared with `rasterTileOffY`. -/
def specFlippedTileOffY (c : RasterCtx) (sp : Stamp) : ℤ :=
  (c.H : ℤ) - pyRound (mmToPt sp.y_mm * ppy c)

/-- All whitespace-separated words of a text, across hard lines. -/
def textWords (s : String) : List String :=
  (splitOnNL s).flatMap pyWords

/-- A concrete glyph-metrics capability: every character 10 points wide. -/
def charW10 : String → ℚ := fun s => 10 * (s.length : ℚ)

/-- A concrete raster text-measure capability: every run is 10 by 10 px. -/
def tbConst : String → ℤ × ℤ := fun _ => (10, 10)

/-- A 100 by 100 px bitmap over a 100 by 100 pt page, so one pixel per
point on both axes. -/
def ctxUnit : RasterCtx := { W := 100, H := 100, pageWpt := 100, pageHpt := 100 }

/-- Sample stamp for C1: page range 2 to 4. -/
def sp24 : Stamp := { stamp_type := ("text"), page_from := 2, page_to := 4 }

/-- Sample stamps for C2: `y_mm = 12.7` (so `y_pt = 36`) and the same
stamp moved up to `y_mm = 25.4`. -/
def spC2a : Stamp := { stamp_type := ("text"), x_mm := 0, y_mm := 127/10, w_mm := 10, h_mm := 10 }

/-- Second C2 sample, `y_mm = 25.4`. -/
def spC2b : Stamp := { spC2a with y_mm := 254/10 }

/-- Sample stamp for C3: text that wraps under `charW10` in its box
(`w_pt = 68.4`, no padding). -/
def spC3 : Stamp :=
  { stamp_type := ("text"), x_mm := 0, y_mm := 0, w_mm := 2413/100, h_mm := 10
    padding_mm := 0, text := ("hello world") }

/-- Sample stamp for C5 witnesses. -/
def spC5 : Stamp := { stamp_type := ("text"), page_from := 1, page_to := 1 }

/-- Security settings with identical nonempty passwords. -/
def secSame : Security :=
  { enabled := true, userPw := ("pw"), ownerPw := ("pw")
    disablePrint := true, disableModify := true, disableCopy := true
    disableAnnotate := true, disableFormfill := true, disableAccessibility := true }

/-- Security disabled. -/
def secOff : Security :=
  { enabled := false, userPw := (""), ownerPw := ("")
    disablePrint := false, disableModify := false, disableCopy := false
    disableAnnotate := false, disableFormfill := false, disableAccessibility := false }

/-- Only the printing restriction enabled. -/
def secPrintOnly : Security :=
  { enabled := true, userPw := ("u"), ownerPw := ("o")
    disablePrint := true, disableModify := false, disableCopy := false
    disableAnnotate := false, disableFormfill := false, disableAccessibility := false }

/-- All six restrictions enabled. -/
def secAllSix : Security :=
  { enabled := true, userPw := ("u"), ownerPw := ("o")
    disablePrint := true, disableModify := true, disableCopy := true
    disableAnnotate := true, disableFormfill := true, disableAccessibility := true }

/-- Sample stamp for C6: a 36 by 18 pt box, padding 3.6 pt, font size 10
(leading 12), three hard lines, so the 36 pt line block overflows the
18 pt box. -/
def spC6 : Stamp :=
  { stamp_type := ("text"), x_mm := 0, y_mm := 0, w_mm := 127/10, h_mm := 635/100
    padding_mm := 127/100, font_size_pt := 10, text := ("a\nb\nc") }

/-- Sample stamp for C7 witness: non-tiled text rotated by 30 degrees. -/
def spC7 : Stamp := { stamp_type := ("text"), rotation_deg := 30 }

/-- Sample stamp for C9 witness: applies to pages 2 and 3 (1-based). -/
def spC9 : Stamp := { stamp_type := ("text"), page_from := 2, page_to := 3 }

/-- Sample stamp for C10: an image stamp with no bytes, tiled flag set. -/
def spC10 : Stamp :=
  { stamp_type := ("image"), image_bytes := none, tiled := true
    x_mm := 0, y_mm := 0, w_mm := 10, h_mm := 10 }

/-! ## Helper lemmas -/

theorem pyInt_mono {q r : ℚ} (h : q ≤ r) : pyInt q ≤ pyInt r := by
  unfold pyInt
  by_cases hq : 0 ≤ q
  · rw [if_pos hq, if_pos (le_trans hq h)]
    exact Int.floor_le_floor h
  · rw [if_neg hq]
    by_cases hr : 0 ≤ r
    · rw [if_pos hr]
      have h1 : (⌈q⌉ : ℤ) ≤ 0 := Int.ceil_le.mpr (by exact_mod_cast le_of_lt (lt_of_not_le hq))
      have h2 : (0 : ℤ) ≤ ⌊r⌋ := Int.floor_nonneg.mpr hr
      omega
    · rw [if_neg hr]
      exact Int.ceil_le_ceil h

theorem pyInt_intCast (z : ℤ) : pyInt (z : ℚ) = z := by
  unfold pyInt
  split <;> simp

theorem pyRound_intCast (z : ℤ) : pyRound ((z : ℚ)) = z := by
  unfold pyRound
  rw [Int.floor_intCast, if_pos (by rw [sub_self]; norm_num)]

theorem floor_le_pyRound (q : ℚ) : ⌊q⌋ ≤ pyRound q := by
  unfold pyRound
  split
  · exact le_refl _
  · split
    · omega
    · split <;> omega

theorem pyRound_le_floor_add_one (q : ℚ) : pyRound q ≤ ⌊q⌋ + 1 := by
  unfold pyRound
  split
  · omega
  · split
    · omega
    · split <;> omega

theorem pyRound_mono {q r : ℚ} (h : q ≤ r) : pyRound q ≤ pyRound r := by
  rcases lt_or_le ⌊q⌋ ⌊r⌋ with hf | hf
  · have h1 := pyRound_le_floor_add_one q
    have h2 := floor_le_pyRound r
    omega
  · have hqr : ⌊q⌋ = ⌊r⌋ := le_antisymm (Int.floor_le_floor h) hf
    have hd : q - (⌊r⌋ : ℚ) ≤ r - (⌊r⌋ : ℚ) := by linarith
    unfold pyRound
    rw [hqr]
    split_ifs <;> first | omega | linarith

theorem isEmpty_filter_eq_not_any {α : Type} (p : α → Bool) (l : List α) :
    (l.filter p).isEmpty = !(l.any p) := by
  induction l with
  | nil => rfl
  | cons a t ih =>
    by_cases h : p a <;> simp [List.filter_cons, h, ih]

theorem pyRangeLen_le {a b s : ℤ} (hs : 6 ≤ s) :
    pyRangeLen a b s ≤ (b - a + 5).toNat / 6 := by
  unfold pyRangeLen
  split
  · exact Nat.zero_le _
  · next hcond =>
    push_neg at hcond
    obtain ⟨hab, _⟩ := hcond
    have h6 : 6 ≤ s.toNat := by omega
    have key : (b - a - 1).toNat / s.toNat ≤ (b - a - 1).toNat / 6 :=
      Nat.div_le_div_left h6 (by norm_num)
    have h2 : (b - a + 5).toNat = (b - a - 1).toNat + 6 := by omega
    rw [h2, Nat.add_div_right _ (by norm_num : 0 < 6)]
    omega

theorem length_pythonRange (a b s : ℤ) :
    (pythonRange a b s).length = pyRangeLen a b s := by
  unfold pythonRange
  rw [List.length_map, List.length_range]

theorem length_flatMap_map {α β γ : Type} (ys : List α) (xs : List β) (f : α → β → γ) :
    (ys.flatMap (fun y => xs.map (f y))).length = ys.length * xs.length := by
  induction ys with
  | nil => simp
  | cons y t ih => simp [ih, Nat.succ_mul]; omega

theorem drawLinesGo_eq (sw : String → ℚ) (w pad startY leading : ℚ) (n : ℕ)
    (hl : 0 ≤ leading) (hp : pad ≤ startY) :
    ∀ (ls : List String) (i : ℕ), i + ls.length ≤ n →
      drawLinesGo sw w pad startY leading n i ls =
        (ls.enumFrom i).map (fun p =>
          (max ((w - sw p.2) / 2) pad,
           startY + leading * (((n : ℤ) - 1 - (p.1 : ℤ) : ℤ) : ℚ), p.2)) := by
  intro ls
  induction ls with
  | nil => intro i _; rfl
  | cons l rest ih =>
    intro i h
    have hin : i < n := by
      simp only [List.length_cons] at h
      omega
    have hnn : (0 : ℚ) ≤ leading * (((n : ℤ) - 1 - (i : ℤ) : ℤ) : ℚ) := by
      apply mul_nonneg hl
      have hz : (0 : ℤ) ≤ (n : ℤ) - 1 - (i : ℤ) := by omega
      exact_mod_cast hz
    have hty : ¬ (startY + leading * (((n : ℤ) - 1 - (i : ℤ) : ℤ) : ℚ) < pad) := by
      push_neg
      linarith
    rw [drawLinesGo, if_neg hty, List.enumFrom, List.map_cons]
    congr 1
    apply ih
    simp only [List.length_cons] at h
    omega

theorem greedyWrapGo_fits (sw : String → ℚ) (maxW : ℚ) (ref : List String) :
    ∀ (ws : List String) (cur : String),
      (sw cur ≤ maxW ∨ cur ∈ ref) → (∀ w ∈ ws, w ∈ ref) →
      ∀ l ∈ greedyWrapGo sw maxW cur ws, sw l ≤ maxW ∨ l ∈ ref := by
  intro ws
  induction ws with
  | nil =>
    intro cur hc _ l hl
    rw [greedyWrapGo] at hl
    rw [List.mem_singleton] at hl
    subst hl
    exact hc
  | cons w ws ih =>
    intro cur hc hws l hl
    rw [greedyWrapGo] at hl
    by_cases hfit : sw (cur ++ (" ") ++ w) ≤ maxW
    · rw [if_pos hfit] at hl
      exact ih (cur ++ (" ") ++ w) (Or.inl hfit)
        (fun x hx => hws x (List.mem_cons_of_mem _ hx)) l hl
    · rw [if_neg hfit] at hl
      rcases List.mem_cons.mp hl with h | h
      · subst h; exact hc
      · exact ih w (Or.inr (hws w (List.mem_cons_self _ _)))
          (fun x hx => hws x (List.mem_cons_of_mem _ hx)) l h

theorem bool_ne_true {b : Bool} (h : ¬ b = true) : b = false := by
  cases b
  · rfl
  · exact absurd rfl h

theorem vectorRotArgs_append (l1 l2 : List VectorOp) :
    vectorRotArgs (l1 ++ l2) = vectorRotArgs l1 ++ vectorRotArgs l2 := by
  simp [vectorRotArgs]

theorem vectorRotArgs_flatMap {α : Type} (L : List α) (f : α → List VectorOp) :
    vectorRotArgs (L.flatMap f) = L.flatMap (fun x => vectorRotArgs (f x)) := by
  induction L with
  | nil => rfl
  | cons x xs ih => simp [List.flatMap_cons, vectorRotArgs_append, ih]

theorem vectorRotArgs_map_drawString (L : List (ℚ × ℚ × String)) :
    vectorRotArgs (L.map (fun t => VectorOp.drawString t.1 t.2.1 t.2.2)) = [] := by
  induction L with
  | nil => rfl
  | cons t ts ih => simpa [vectorRotArgs] using ih

theorem rasterRotArgs_stamp (tb : String → ℤ × ℤ) (c : RasterCtx) (sp : Stamp) :
    rasterRotArgs (rasterStampOps tb c sp) = [-(effectiveAngle sp)] := by
  unfold rasterStampOps
  by_cases h1 : (decide (sp.stamp_type = ("image")) && imgTruthy sp.image_bytes) = true
  · have hEA : effectiveAngle sp = sp.rotation_deg := by
      unfold effectiveAngle
      rw [if_neg (by rw [h1]; simp)]
    rw [if_pos h1, hEA]
    simp [rasterRotArgs]
  · have h1f := bool_ne_true h1
    rw [if_neg h1]
    by_cases h2 : sp.tiled = true
    · have hEA : effectiveAngle sp = sp.tile_angle_deg := by
        unfold effectiveAngle
        rw [if_pos (by rw [h1f, h2]; rfl)]
      rw [if_pos h2, hEA]
      simp [rasterRotArgs]
    · have h2f := bool_ne_true h2
      have hEA : effectiveAngle sp = sp.rotation_deg := by
        unfold effectiveAngle
        rw [if_neg (by rw [h1f, h2f]; simp)]
      rw [if_neg h2, hEA]
      simp [rasterRotArgs]

theorem vectorBoxLines_fits (sw : String → ℚ) (sp : Stamp) :
    ∀ l ∈ vectorBoxLines sw sp,
      sw l ≤ max 0 (mmToPt sp.w_mm - 2 * mmToPt sp.padding_mm) ∨ l ∈ textWords sp.text := by
  intro l hl
  unfold vectorBoxLines simpleSplit at hl
  rw [List.mem_flatMap] at hl
  obtain ⟨hline, hmem, hl2⟩ := hl
  rcases hpw : pyWords hline with _ | ⟨w0, ws⟩
  · rw [hpw] at hl2
    simp [greedyWrap] at hl2
  · rw [hpw] at hl2
    rw [greedyWrap] at hl2
    have hW : ∀ x ∈ w0 :: ws, x ∈ textWords sp.text := by
      intro x hx
      unfold textWords
      rw [List.mem_flatMap]
      exact ⟨hline, hmem, hpw ▸ hx⟩
    exact greedyWrapGo_fits sw _ (textWords sp.text) ws w0
      (Or.inr (hW w0 (List.mem_cons_self _ _)))
      (fun x hx => hW x (List.mem_cons_of_mem _ hx)) l hl2

/-! ## Claim theorems -/

/-- C1: both the raster preview path and the vector overlay builder gate a
stamp on 0-based page index `i` by the same predicate
`page_from - 1 ≤ i ≤ page_to - 1`; for page range (2, 4) the stamp
applies exactly to the 0-based indices 1, 2 and 3 (false at 0 and 4). -/
theorem applicability_filter_shared :
    (∀ (sp : Stamp) (i : ℕ), rasterApplies sp i = vectorApplies sp i)
    ∧ (∀ (sp : Stamp) (i : ℕ),
        rasterApplies sp i = true ↔
          (sp.page_from - 1 ≤ (i : ℤ) ∧ (i : ℤ) ≤ sp.page_to - 1))
    ∧ (rasterApplies sp24 0 = false ∧ rasterApplies sp24 1 = true
       ∧ rasterApplies sp24 2 = true ∧ rasterApplies sp24 3 = true
       ∧ rasterApplies sp24 4 = false
       ∧ vectorApplies sp24 0 = false ∧ vectorApplies sp24 1 = true
       ∧ vectorApplies sp24 2 = true ∧ vectorApplies sp24 3 = true
       ∧ vectorApplies sp24 4 = false) :=
  ⟨fun _ _ => rfl, fun sp i => by simp [rasterApplies], by decide⟩

/-- Witness for C1: the page-range (2, 4) stamp applies to 0-based page
index 2. -/
theorem applicability_filter_shared_witness : rasterApplies sp24 2 = true :=
  (applicability_filter_shared.2.1 sp24 2).mpr (by decide)

/-- C2 counterexample: for a stamp at `y_mm = 12.7` (36 pt) on a 100 px /
100 pt page, the raster tiled phase offset is 36 px measured from the
top of the bitmap; the bitmap-height flip the claim asserts would give
64 px.  The offset is not flipped. -/
theorem tiled_offset_flip_cex :
    rasterTileOffY ctxUnit spC2a = 36
    ∧ specFlippedTileOffY ctxUnit spC2a = 64
    ∧ ¬ (rasterTileOffY ctxUnit spC2a = specFlippedTileOffY ctxUnit spC2a) := by
  have h36 : mmToPt spC2a.y_mm * ppy ctxUnit = ((36 : ℤ) : ℚ) := by
    norm_num [mmToPt, ptPerMM, ppy, ctxUnit, spC2a]
  have h1 : rasterTileOffY ctxUnit spC2a = 36 := by
    unfold rasterTileOffY
    rw [h36, pyInt_intCast]
  have h2 : specFlippedTileOffY ctxUnit spC2a = 64 := by
    unfold specFlippedTileOffY
    rw [h36, pyRound_intCast]
    decide
  exact ⟨h1, h2, by rw [h1, h2]; decide⟩

/-- C2 amended: the box-mode rectangle bounds apply the bitmap-height Y
flip — raising `y_mm` moves the box top to a smaller top-left pixel
row — but the raster tiled phase offset is applied unflipped in
top-left pixel space, so raising `y_mm` moves the tile grid to larger
pixel rows (downward on screen). -/
theorem tiled_offset_unflipped (c : RasterCtx) (sp sp' : Stamp)
    (hpage : 0 < c.pageHpt) (hy : sp.y_mm ≤ sp'.y_mm) (hh : sp.h_mm = sp'.h_mm) :
    (boxRect c sp').top ≤ (boxRect c sp).top
    ∧ rasterTileOffY c sp ≤ rasterTileOffY c sp' := by
  have hppy : (0 : ℚ) ≤ ppy c := by
    unfold ppy
    exact div_nonneg (Nat.cast_nonneg _) (le_of_lt hpage)
  have hpt : (0 : ℚ) ≤ ptPerMM := by unfold ptPerMM; norm_num
  have hmono : mmToPt sp.y_mm ≤ mmToPt sp'.y_mm := by
    unfold mmToPt
    exact mul_le_mul_of_nonneg_right hy hpt
  constructor
  · show (c.H : ℤ) - pyRound ((mmToPt sp'.y_mm + mmToPt sp'.h_mm) * ppy c)
      ≤ (c.H : ℤ) - pyRound ((mmToPt sp.y_mm + mmToPt sp.h_mm) * ppy c)
    have hr : pyRound ((mmToPt sp.y_mm + mmToPt sp.h_mm) * ppy c)
        ≤ pyRound ((mmToPt sp'.y_mm + mmToPt sp'.h_mm) * ppy c) := by
      apply pyRound_mono
      apply mul_le_mul_of_nonneg_right _ hppy
      rw [hh]
      linarith
    omega
  · unfold rasterTileOffY
    exact pyInt_mono (mul_le_mul_of_nonneg_right hmono hppy)

/-- Witness for C2's amended theorem: moving the sample stamp from
`y_mm = 12.7` to `y_mm = 25.4` raises the box (top row does not grow)
while pushing the tile phase offset down (offset does not shrink). -/
theorem tiled_offset_unflipped_witness :
    (boxRect ctxUnit spC2b).top ≤ (boxRect ctxUnit spC2a).top
    ∧ rasterTileOffY ctxUnit spC2a ≤ rasterTileOffY ctxUnit spC2b :=
  tiled_offset_unflipped ctxUnit spC2a spC2b (by norm_num [ctxUnit])
    (by norm_num [spC2a, spC2b]) (by norm_num [spC2a, spC2b])

/-- C4: the permission mask starts from the all-granted baseline
`0xFFFFFFFC` and clears one bit per enabled restriction: enabling only
"disable printing" clears exactly bit 2 of the baseline, and enabling
all six restrictions clears exactly bits 2, 4, 5, 6, 9 and 10, leaving
every other baseline bit set. -/
theorem permission_mask_bits :
    (∀ b : ℕ, (permissionsMask secPrintOnly).testBit b
        = (permBaseline.testBit b && !(decide (b = 2))))
    ∧ (∀ b : ℕ, (permissionsMask secAllSix).testBit b
        = (permBaseline.testBit b
           && !(decide (b = 2) || decide (b = 4) || decide (b = 5)
                || decide (b = 6) || decide (b = 9) || decide (b = 10)))) := by
  have hmask1 : permissionsMask secPrintOnly = Nat.ldiff permBaseline 4 := by
    simp [permissionsMask, secPrintOnly]
  have hmask6 : permissionsMask secAllSix =
      Nat.ldiff (Nat.ldiff (Nat.ldiff (Nat.ldiff (Nat.ldiff
        (Nat.ldiff permBaseline 4) 16) 32) 64) 512) 1024 := by
    simp [permissionsMask, secAllSix]
  have hcomm : ∀ k b : ℕ, decide (k = b) = decide (b = k) := by
    intro k b
    simp [eq_comm]
  constructor
  · intro b
    rw [hmask1, Nat.testBit_ldiff, show (4 : ℕ) = 2 ^ 2 by norm_num,
      Nat.testBit_two_pow, hcomm]
  · intro b
    rw [hmask6]
    simp only [Nat.testBit_ldiff]
    rw [show (4 : ℕ) = 2 ^ 2 by norm_num, show (16 : ℕ) = 2 ^ 4 by norm_num,
      show (32 : ℕ) = 2 ^ 5 by norm_num, show (64 : ℕ) = 2 ^ 6 by norm_num,
      show (512 : ℕ) = 2 ^ 9 by norm_num, show (1024 : ℕ) = 2 ^ 10 by norm_num]
    simp only [Nat.testBit_two_pow, hcomm, Bool.not_or, Bool.and_assoc]
    norm_num

/-- C5: with security enabled and the passwords missing (either empty) or
identical, the apply operation aborts with an error — producing no
output document — and the result does not depend on the page count,
showing the validation happens before any per-page work. -/
theorem security_validation_aborts (sw : String → ℚ) (stamps : List Stamp)
    (sec : Security) (n : ℕ) (pw ph : ℚ)
    (henb : sec.enabled = true)
    (hbad : sec.userPw = ("") ∨ sec.ownerPw = ("") ∨ sec.userPw = sec.ownerPw) :
    (∃ msg, applyNow sw true stamps sec n pw ph = Except.error msg)
    ∧ applyNow sw true stamps sec n pw ph = applyNow sw true stamps sec 0 pw ph := by
  constructor
  · unfold applyNow
    split_ifs with h1 h2 h3 h4
    · exact ⟨_, rfl⟩
    · exact ⟨_, rfl⟩
    · exact ⟨_, rfl⟩
    · exact ⟨_, rfl⟩
    · exfalso
      rcases hbad with h | h | h
      · exact h3 (by simp [henb, h])
      · exact h3 (by simp [henb, h])
      · exact h4 (by simp [henb, h])
  · unfold applyNow
    split_ifs with h1 h2 h3 h4
    any_goals rfl
    exfalso
    rcases hbad with h | h | h
    · exact h3 (by simp [henb, h])
    · exact h3 (by simp [henb, h])
    · exact h4 (by simp [henb, h])

/-- Witness for C5: identical nonempty passwords abort the concrete apply
run on a 3-page document, with the same result as on a 0-page one. -/
theorem security_validation_aborts_witness :
    (∃ msg, applyNow charW10 true [spC5] secSame 3 100 100 = Except.error msg)
    ∧ applyNow charW10 true [spC5] secSame 3 100 100
      = applyNow charW10 true [spC5] secSame 0 100 100 :=
  security_validation_aborts charW10 [spC5] secSame 3 100 100 rfl
    (Or.inr (Or.inr rfl))

/-- C9: the overlay builder returns `none` exactly on pages where no stamp
applies, and the apply pipeline emits one output page per source page —
index preserved — with exactly one merge call when some stamp applies to
that page and none otherwise. -/
theorem merge_frame_effect (sw : String → ℚ) (stamps : List Stamp)
    (sec : Security) (n : ℕ) (pw ph : ℚ)
    (hst : ¬ stamps = [])
    (hsec : sec.enabled = true →
      ¬ sec.userPw = ("") ∧ ¬ sec.ownerPw = ("") ∧ ¬ sec.userPw = sec.ownerPw) :
    (∀ i : ℕ, (buildOverlayOption sw stamps i pw ph = none
        ↔ stamps.any (fun sp => vectorApplies sp i) = false))
    ∧ applyNow sw true stamps sec n pw ph = Except.ok
        ((List.range n).map (fun i =>
          { srcIdx := i
            mergeCount :=
              if stamps.any (fun sp => vectorApplies sp i) then 1 else 0 }),
         if sec.enabled then some (sec.userPw, sec.ownerPw, permissionsFlag sec)
         else none) := by
  have hsome : ∀ i, (buildOverlayOption sw stamps i pw ph).isSome
      = stamps.any (fun sp => vectorApplies sp i) := by
    intro i
    unfold buildOverlayOption
    rcases ha : stamps.any (fun sp => vectorApplies sp i) with _ | _ <;>
      simp [isEmpty_filter_eq_not_any, ha]
  have hnone : ∀ i : ℕ, (buildOverlayOption sw stamps i pw ph = none
      ↔ stamps.any (fun sp => vectorApplies sp i) = false) := by
    intro i
    unfold buildOverlayOption
    rcases ha : stamps.any (fun sp => vectorApplies sp i) with _ | _ <;>
      simp [isEmpty_filter_eq_not_any, ha]
  refine ⟨hnone, ?_⟩
  have hc2 : ¬ (stamps.isEmpty = true) := by
    simpa [List.isEmpty_iff] using hst
  have hc3 : ¬ ((sec.enabled && (decide (sec.userPw = ("")) || decide (sec.ownerPw = ("")))) = true) := by
    rcases he : sec.enabled with _ | _
    · simp
    · obtain ⟨h1, h2, _⟩ := hsec he
      simp [h1, h2]
  have hc4 : ¬ ((sec.enabled && decide (sec.userPw = sec.ownerPw)) = true) := by
    rcases he : sec.enabled with _ | _
    · simp
    · obtain ⟨_, _, h3⟩ := hsec he
      simp [h3]
  unfold applyNow
  rw [if_neg (by decide), if_neg hc2, if_neg hc3, if_neg hc4]
  simp only [hsome]

/-- Witness for C9: a stamp with `page_from = 2, page_to = 3` on a 5-page
document leaves pages at indices 0, 3 and 4 unmerged and merges exactly
once onto the pages at indices 1 and 2. -/
theorem merge_frame_effect_witness :
    applyNow charW10 true [spC9] secOff 5 100 100 = Except.ok
      ([⟨0, 0⟩, ⟨1, 1⟩, ⟨2, 1⟩, ⟨3, 0⟩, ⟨4, 0⟩], none) := by
  rw [(merge_frame_effect charW10 [spC9] secOff 5 100 100 (by decide)
      (fun h => absurd h (by decide))).2]
  have h1 : (List.range 5).map (fun i =>
      ({ srcIdx := i
         mergeCount := if [spC9].any (fun sp => vectorApplies sp i) then 1 else 0 }
        : OutputPage))
      = [⟨0, 0⟩, ⟨1, 1⟩, ⟨2, 1⟩, ⟨3, 0⟩, ⟨4, 0⟩] := by decide
  rw [h1]
  rfl

/-- C7: every angle the raster path hands to the PIL rotate primitive is
the negation of the stamp's effective angle (its tile angle on the tiled
path, its rotation otherwise), while every angle the vector path hands
to `canvas.rotate` is the same effective angle un-negated. -/
theorem rotation_sign_convention (tb : String → ℤ × ℤ) (sw : String → ℚ)
    (c : RasterCtx) (pw ph : ℚ) (sp : Stamp) :
    (∀ a ∈ rasterRotArgs (rasterStampOps tb c sp), a = -(effectiveAngle sp))
    ∧ (∀ a ∈ vectorRotArgs (vectorStampOps sw pw ph sp), a = effectiveAngle sp) := by
  constructor
  · intro a ha
    rw [rasterRotArgs_stamp, List.mem_singleton] at ha
    exact ha
  · intro a ha
    unfold vectorStampOps at ha
    by_cases h1 : (decide (sp.stamp_type = ("image")) && imgTruthy sp.image_bytes) = true
    · rw [if_pos h1] at ha
      have hEA : effectiveAngle sp = sp.rotation_deg := by
        unfold effectiveAngle
        rw [if_neg (by rw [h1]; simp)]
      simp only [vectorRotArgs, List.flatMap_cons, List.flatMap_nil,
        List.nil_append, List.append_nil, List.mem_singleton] at ha
      rw [ha, hEA]
    · have h1f := bool_ne_true h1
      rw [if_neg h1] at ha
      by_cases hty : sp.stamp_type = ("text")
      · rw [if_pos hty] at ha
        by_cases h2 : sp.tiled = true
        · rw [if_pos h2] at ha
          have hEA : effectiveAngle sp = sp.tile_angle_deg := by
            unfold effectiveAngle
            rw [if_pos (by rw [h1f, h2]; rfl)]
          rw [vectorRotArgs_append] at ha
          simp only [vectorRotArgs_flatMap] at ha
          simp only [vectorRotArgs, List.flatMap_cons, List.flatMap_nil,
            List.nil_append, List.append_nil] at ha
          simp only [List.mem_append, List.mem_flatMap, List.not_mem_nil,
            false_or, List.mem_singleton] at ha
          obtain ⟨y, _, x, _, ha⟩ := ha
          rw [ha, hEA]
        · have h2f := bool_ne_true h2
          rw [if_neg h2] at ha
          have hEA : effectiveAngle sp = sp.rotation_deg := by
            unfold effectiveAngle
            rw [if_neg (by rw [h1f, h2f]; simp)]
          rw [vectorRotArgs_append, vectorRotArgs_append,
            vectorRotArgs_map_drawString] at ha
          simp only [vectorRotArgs, List.flatMap_cons, List.flatMap_nil,
            List.nil_append, List.append_nil] at ha
          simp only [List.mem_append, List.not_mem_nil, or_false, false_or,
            List.mem_singleton] at ha
          rw [ha, hEA]
      · rw [if_neg hty] at ha
        simp [vectorRotArgs] at ha

/-- Witness for C7: for a text stamp rotated by 30 degrees, the raster
path passes -30 to the rotate primitive and the vector path passes 30. -/
theorem rotation_sign_convention_witness :
    (-(30 : ℚ)) = -(effectiveAngle spC7) ∧ (30 : ℚ) = effectiveAngle spC7 := by
  constructor
  · apply (rotation_sign_convention tbConst charW10 ctxUnit 100 100 spC7).1
    rw [rasterRotArgs_stamp, List.mem_singleton]
    unfold effectiveAngle
    rw [if_neg (by decide)]
    rfl
  · apply (rotation_sign_convention tbConst charW10 ctxUnit 100 100 spC7).2
    unfold vectorStampOps
    rw [if_neg (by decide), if_pos (by decide), if_neg (by decide),
      vectorRotArgs_append, vectorRotArgs_append, vectorRotArgs_map_drawString]
    simp only [vectorRotArgs, List.flatMap_cons, List.flatMap_nil,
      List.nil_append, List.append_nil]
    exact List.mem_append.mpr (Or.inl (List.mem_singleton.mpr rfl))

/-- C10 counterexample: an image-typed stamp with no bytes and the tiled
flag set produces no vector operations, but on the raster path it lands
in the tiled-text branch — it does not draw the box-mode rectangle,
border and text the claim asserts. -/
theorem image_no_bytes_cex :
    vectorStampOps charW10 100 100 spC10 = []
    ∧ (rasterStampOps tbConst ctxUnit spC10).map RasterOp.kind = [RKind.tiledText]
    ∧ ¬ ((rasterStampOps tbConst ctxUnit spC10).map RasterOp.kind
        = [RKind.rectFill, RKind.rectBorder, RKind.textBlock]) := by
  refine ⟨by decide, ?_, ?_⟩
  · decide
  · decide

/-- C10 amended: for an image-typed stamp with absent bytes the vector
builder emits nothing; the raster path falls into the text branch and
draws the box-mode rectangle, border and text only when the stamp is not
tiled — when tiled it draws the tiled text pattern instead. -/
theorem image_no_bytes_branches (tb : String → ℤ × ℤ) (sw : String → ℚ)
    (c : RasterCtx) (pw ph : ℚ) (sp : Stamp)
    (hty : sp.stamp_type = ("image")) (hby : imgTruthy sp.image_bytes = false) :
    vectorStampOps sw pw ph sp = []
    ∧ (sp.tiled = false →
        (rasterStampOps tb c sp).map RasterOp.kind
          = [RKind.rectFill, RKind.rectBorder, RKind.textBlock])
    ∧ (sp.tiled = true →
        (rasterStampOps tb c sp).map RasterOp.kind = [RKind.tiledText]) := by
  refine ⟨?_, ?_, ?_⟩
  · unfold vectorStampOps
    rw [if_neg (by rw [hby]; simp), if_neg (by rw [hty]; decide)]
  · intro ht
    unfold rasterStampOps
    rw [if_neg (by rw [hby]; simp), if_neg (by rw [ht]; decide)]
    rfl
  · intro ht
    unfold rasterStampOps
    rw [if_neg (by rw [hby]; simp), if_pos ht]
    rfl

/-- Witness for C10's amended theorem at the concrete tiled no-byte image
stamp. -/
theorem image_no_bytes_branches_witness :
    (rasterStampOps tbConst ctxUnit spC10).map RasterOp.kind = [RKind.tiledText] :=
  (image_no_bytes_branches tbConst charW10 ctxUnit 100 100 spC10 rfl rfl).2.2 rfl

/-- Evaluation of the vector wrap at the C3 sample: under the 10-per-char
metrics, the 68.4 pt content box wraps the 110 pt wide string into two
lines. -/
theorem spC3_lines_eval : vectorBoxLines charW10 spC3 = [("hello"), ("world")] := by
  have hbw : max 0 (mmToPt spC3.w_mm - 2 * mmToPt spC3.padding_mm) = (342/5 : ℚ) := by
    rw [max_eq_right] <;> norm_num [mmToPt, ptPerMM, spC3]
  have hc : ¬ (charW10 (("hello") ++ (" ") ++ ("world")) ≤ (342/5 : ℚ)) := by
    have hlen : ((("hello") ++ (" ") ++ ("world")) : String).length = 11 := by decide
    unfold charW10
    rw [hlen]
    norm_num
  unfold vectorBoxLines
  rw [hbw, show spC3.text = ("hello world") from rfl]
  unfold simpleSplit
  rw [show splitOnNL ("hello world") = [("hello world")] from by decide]
  simp only [List.flatMap_cons, List.flatMap_nil, List.append_nil]
  rw [show pyWords ("hello world") = [("hello"), ("world")] from by decide]
  simp only [greedyWrap, greedyWrapGo, if_neg hc]

/-- C3 counterexample: for the sample stamp ("hello world" in a 68.4 pt
wide, zero-padding box, 10-per-char metrics) the vector backend wraps to
two lines while the raster backend keeps one line — the line sequences
differ. -/
theorem text_layout_backend_divergence_cex :
    vectorBoxLines charW10 spC3 = [("hello"), ("world")]
    ∧ rasterLineSeq spC3 = [("hello world")]
    ∧ ¬ (vectorBoxLines charW10 spC3 = rasterLineSeq spC3) := by
  refine ⟨spC3_lines_eval, by decide, ?_⟩
  rw [spC3_lines_eval, show rasterLineSeq spC3 = [("hello world")] from by decide]
  decide

/-- C3 amended: the backends do not share the layout contract.  The
vector path greedy word-wraps into the padding-inset content width —
every produced line fits the width unless it is a single unbreakable
word of the content — while the raster path performs no wrapping: it
hands the raw string to PIL, which breaks only at explicit line breaks. -/
theorem text_layout_divergence (sw : String → ℚ) (sp : Stamp) :
    (∀ l ∈ vectorBoxLines sw sp,
      sw l ≤ max 0 (mmToPt sp.w_mm - 2 * mmToPt sp.padding_mm) ∨ l ∈ textWords sp.text)
    ∧ rasterLineSeq sp = splitOnNL sp.text :=
  ⟨vectorBoxLines_fits sw sp, rfl⟩

/-- Witness for C3's amended theorem: the wrapped line "hello" of the
sample stamp fits the content width or is a word of the content. -/
theorem text_layout_divergence_witness :
    charW10 ("hello") ≤ max 0 (mmToPt spC3.w_mm - 2 * mmToPt spC3.padding_mm)
    ∨ ("hello") ∈ textWords spC3.text :=
  (text_layout_divergence charW10 spC3).1 ("hello")
    (by rw [spC3_lines_eval]; exact List.mem_cons_self _ _)

/-- Evaluation of the wrapped lines at the C6 sample: three hard lines,
no wrapping needed. -/
theorem spC6_lines_eval : vectorBoxLines charW10 spC6 = [("a"), ("b"), ("c")] := by
  decide

/-- Evaluation of the drawn strings at the C6 sample: box 36 by 18 pt,
padding 3.6 pt, leading 12 pt, three lines; `start_y` clamps to the
padding and the baselines stack upward from it. -/
theorem spC6_drawn_eval : vectorBoxDrawnStrings charW10 spC6
    = [((13 : ℚ), (138/5 : ℚ), ("a")), ((13 : ℚ), (78/5 : ℚ), ("b")),
       ((13 : ℚ), (18/5 : ℚ), ("c"))] := by
  have hca : charW10 ("a") = 10 := by
    unfold charW10
    rw [show (("a") : String).length = 1 from by decide]
    norm_num
  have hcb : charW10 ("b") = 10 := by
    unfold charW10
    rw [show (("b") : String).length = 1 from by decide]
    norm_num
  have hcc : charW10 ("c") = 10 := by
    unfold charW10
    rw [show (("c") : String).length = 1 from by decide]
    norm_num
  have hw : mmToPt spC6.w_mm = (36 : ℚ) := by norm_num [mmToPt, ptPerMM, spC6]
  have hh : mmToPt spC6.h_mm = (18 : ℚ) := by norm_num [mmToPt, ptPerMM, spC6]
  have hp : mmToPt spC6.padding_mm = (18/5 : ℚ) := by norm_num [mmToPt, ptPerMM, spC6]
  have hf : spC6.font_size_pt = (10 : ℚ) := rfl
  have hstart : max ((mmToPt spC6.h_mm
        - spC6.font_size_pt * (6/5) * ((vectorBoxLines charW10 spC6).length : ℕ)) / 2)
      (mmToPt spC6.padding_mm) = (18/5 : ℚ) := by
    rw [spC6_lines_eval, hh, hp, hf, max_eq_right]
    norm_num
  unfold vectorBoxDrawnStrings
  rw [hstart]
  rw [spC6_lines_eval]
  rw [show (([("a"), ("b"), ("c")] : List String)).length = 3 from rfl]
  rw [drawLinesGo_eq charW10 (mmToPt spC6.w_mm) (mmToPt spC6.padding_mm) (18/5)
    (spC6.font_size_pt * (6/5)) 3
    (by rw [hf]; norm_num) (by rw [hp]) [("a"), ("b"), ("c")] 0 (by norm_num)]
  simp only [List.enumFrom, List.map]
  rw [hw, hp, hf, hca, hcb, hcc]
  norm_num [max_def]

/-- C6 counterexample: for the sample stamp the line block (36 pt)
overflows the 18 pt box; the first line's baseline at 27.6 pt lies above
the top padding boundary (18 - 3.6 = 14.4 pt) yet the line IS drawn —
there is no truncation. -/
theorem vector_text_truncation_cex :
    ((13 : ℚ), (138/5 : ℚ), ("a")) ∈ vectorBoxDrawnStrings charW10 spC6
    ∧ mmToPt spC6.h_mm - mmToPt spC6.padding_mm < 138/5 := by
  constructor
  · rw [spC6_drawn_eval]
    exact List.mem_cons_self _ _
  · norm_num [mmToPt, ptPerMM, spC6]

/-- C6 amended: on the vector path the leading is `font_size * 1.2`, the
line block's bottom is clamped to the padding, and every wrapped line is
drawn — the `ty < pad` cutoff never fires because every baseline sits at
or above `start_y ≥ pad`, so lines overflowing the top are drawn rather
than truncated. -/
theorem vector_text_no_truncation (sw : String → ℚ) (sp : Stamp)
    (hfs : 0 ≤ sp.font_size_pt) :
    (vectorBoxDrawnStrings sw sp).length = (vectorBoxLines sw sp).length
    ∧ vectorBoxDrawnStrings sw sp = ((vectorBoxLines sw sp).enum).map (fun p =>
        (max ((mmToPt sp.w_mm - sw p.2) / 2) (mmToPt sp.padding_mm),
         max ((mmToPt sp.h_mm
             - sp.font_size_pt * (6/5) * ((vectorBoxLines sw sp).length : ℕ)) / 2)
           (mmToPt sp.padding_mm)
         + sp.font_size_pt * (6/5)
           * (((((vectorBoxLines sw sp).length : ℤ)) - 1 - (p.1 : ℤ) : ℤ) : ℚ),
         p.2)) := by
  have hmain := drawLinesGo_eq sw (mmToPt sp.w_mm) (mmToPt sp.padding_mm)
    (max ((mmToPt sp.h_mm
        - sp.font_size_pt * (6/5) * ((vectorBoxLines sw sp).length : ℕ)) / 2)
      (mmToPt sp.padding_mm))
    (sp.font_size_pt * (6/5)) (vectorBoxLines sw sp).length
    (mul_nonneg hfs (by norm_num)) (le_max_right _ _)
    (vectorBoxLines sw sp) 0 (by omega)
  constructor
  · unfold vectorBoxDrawnStrings
    rw [hmain]
    simp [List.enumFrom_length]
  · unfold vectorBoxDrawnStrings
    rw [hmain]
    rfl

/-- Witness for C6's amended theorem: at the sample stamp all three lines
are drawn. -/
theorem vector_text_no_truncation_witness :
    (vectorBoxDrawnStrings charW10 spC6).length = 3 := by
  rw [(vector_text_no_truncation charW10 spC6 (by norm_num [spC6])).1,
    spC6_lines_eval]
  decide

/-- C8: both tiling generators floor the grid pitch at 6 device units for
every spacing value, enumerate grid positions from one page extent below
zero to twice the page extent on both axes, and therefore place at most
a bounded, explicitly computable number of tiles. -/
theorem tiling_bounded_placements (c : RasterCtx) (sp : Stamp) (pw ph : ℚ) :
    (6 ≤ rasterTileDxPx c sp ∧ 6 ≤ rasterTileDyPx c sp
      ∧ 6 ≤ vectorTileStepX sp ∧ 6 ≤ vectorTileStepY sp)
    ∧ ((rasterTileXs c sp).length ≤ (3 * (c.W : ℤ) + 5).toNat / 6
      ∧ (rasterTileYs c sp).length ≤ (3 * (c.H : ℤ) + 5).toNat / 6
      ∧ (vectorTileXs pw sp).length ≤ (pyInt (pw * 2) + pyInt pw + 5).toNat / 6
      ∧ (vectorTileYs ph sp).length ≤ (pyInt (ph * 2) + pyInt ph + 5).toNat / 6)
    ∧ (rasterTilePositions c sp).length
        = (rasterTileYs c sp).length * (rasterTileXs c sp).length := by
  have hvx : 6 ≤ vectorTileStepX sp := by
    unfold vectorTileStepX
    calc (6 : ℤ) = pyInt (((6 : ℤ) : ℚ)) := (pyInt_intCast 6).symm
      _ ≤ pyInt (max 6 (mmToPt sp.tile_dx_mm)) := pyInt_mono (by
          rw [show (((6 : ℤ)) : ℚ) = (6 : ℚ) by norm_num]
          exact le_max_left _ _)
  have hvy : 6 ≤ vectorTileStepY sp := by
    unfold vectorTileStepY
    calc (6 : ℤ) = pyInt (((6 : ℤ) : ℚ)) := (pyInt_intCast 6).symm
      _ ≤ pyInt (max 6 (mmToPt sp.tile_dy_mm)) := pyInt_mono (by
          rw [show (((6 : ℤ)) : ℚ) = (6 : ℚ) by norm_num]
          exact le_max_left _ _)
  have hdx : 6 ≤ rasterTileDxPx c sp := le_max_left _ _
  have hdy : 6 ≤ rasterTileDyPx c sp := le_max_left _ _
  refine ⟨⟨hdx, hdy, hvx, hvy⟩, ⟨?_, ?_, ?_, ?_⟩, ?_⟩
  · unfold rasterTileXs
    rw [length_pythonRange]
    have h := @pyRangeLen_le (-(c.W : ℤ)) (2 * (c.W : ℤ)) _ hdx
    have heq : 2 * (c.W : ℤ) - -(c.W : ℤ) + 5 = 3 * (c.W : ℤ) + 5 := by ring
    rwa [heq] at h
  · unfold rasterTileYs
    rw [length_pythonRange]
    have h := @pyRangeLen_le (-(c.H : ℤ)) (2 * (c.H : ℤ)) _ hdy
    have heq : 2 * (c.H : ℤ) - -(c.H : ℤ) + 5 = 3 * (c.H : ℤ) + 5 := by ring
    rwa [heq] at h
  · unfold vectorTileXs
    rw [length_pythonRange]
    have h := @pyRangeLen_le (-(pyInt pw)) (pyInt (pw * 2)) _ hvx
    have heq : pyInt (pw * 2) - -(pyInt pw) + 5 = pyInt (pw * 2) + pyInt pw + 5 := by
      ring
    rwa [heq] at h
  · unfold vectorTileYs
    rw [length_pythonRange]
    have h := @pyRangeLen_le (-(pyInt ph)) (pyInt (ph * 2)) _ hvy
    have heq : pyInt (ph * 2) - -(pyInt ph) + 5 = pyInt (ph * 2) + pyInt ph + 5 := by
      ring
    rwa [heq] at h
  · exact length_flatMap_map _ _ _

end AutoStamp
